import Mathlib

/-!
Verification of the science-fair student/activity assignment pipeline
(`science_fair.py`): a shallow embedding of the model-building,
solution-extraction and validation code, together with theorems about the
constraint set, the objective, the extractor and the reporter.

The script builds one binary ILP: a decision variable per
(period, student, activity), five families of linear constraints, and a
weighted objective; after solving it extracts a per-student assignment
list and writes one CSV row per student.
-/

namespace ScienceFair

/-- One parsed input row: `first_name, last_name, choice1..choice4`
(the script unpacks each CSV row into exactly these six fields). -/
structure StudentRow where
  firstName : String
  lastName : String
  choice1 : String
  choice2 : String
  choice3 : String
  choice4 : String
deriving DecidableEq, Repr

/-- Run configuration: the activity catalog (`ACTIVITIES_LIST`), the number
of periods (`NUM_PERIODS`), the capacity bounds (`MIN_NUM_IN_ACTIVITY`,
`MAX_NUM_IN_ACTIVITY`) and the loaded student rows. -/
structure Config where
  activitiesList : List String
  numPeriods : Nat
  minSize : Int
  maxSize : Int
  rows : List StudentRow
deriving Repr

/-- Mirrors `NUM_ACTIVITIES = len(ACTIVITIES_LIST)`. -/
def numActivities (cfg : Config) : Nat := cfg.activitiesList.length

/-- Mirrors `NUM_STUDENTS = len(student_choice_data)`. -/
def numStudents (cfg : Config) : Nat := cfg.rows.length

/-- Default row used for out-of-range lookups (never reached for indices
below `numStudents`). -/
def defaultRow : StudentRow := ⟨"", "", "", "", "", ""⟩

/-- Per-student data assembled in STEP 3 of the script
(`student_info_dicts[i]`), before the solver runs: integer choice ids, the
original choice names and the display name `"last, first"`. -/
structure StudentInfo where
  choices : List Nat
  choicesFullNames : List String
  name : String
deriving DecidableEq, Repr

/-- STEP 3: `activities_dict[c]` maps an activity name to its position in
`ACTIVITIES_LIST` (valid input only ever uses names present in the catalog;
a missing name is a load-time error in the script). -/
def activitiesDict (acts : List String) (c : String) : Nat := acts.indexOf c

/-- STEP 3: builds `student_info_dicts[i]` from one input row:
`name = last_name + ', ' + first_name`, `choices` the four activity ids,
`choices_full_names` the four raw names. -/
def studentInfo (cfg : Config) (r : StudentRow) : StudentInfo :=
  { choices := [r.choice1, r.choice2, r.choice3, r.choice4].map
      (activitiesDict cfg.activitiesList)
  , choicesFullNames := [r.choice1, r.choice2, r.choice3, r.choice4]
  , name := r.lastName ++ ", " ++ r.firstName }

/-- The info record of student `i`. -/
def infoOf (cfg : Config) (i : Nat) : StudentInfo :=
  studentInfo cfg (cfg.rows.getD i defaultRow)

/-- The four choice ids of student `i` (`student_info_dicts[i]['choices']`). -/
def choicesOf (cfg : Config) (i : Nat) : List Nat := (infoOf cfg i).choices

/-- Comparison operator of one linear constraint (`==`, `<=` or `>=` in the
PuLP model). -/
inductive Cmp where
  | eq
  | le
  | ge
deriving DecidableEq, Repr

/-- One linear constraint of the model: a list of
((period, student, activity), coefficient) terms, an operator and a
constant bound, exactly the data of one `prob += lpSum(vars_to_sum) <op> k`
line. -/
structure LinCon where
  terms : List ((Nat × Nat × Nat) × Int)
  cmp : Cmp
  bound : Int
deriving DecidableEq, Repr

/-- Value of a linear expression at a variable valuation `v` (period →
student → activity → value). -/
def evalTerms (v : Nat → Nat → Nat → Int) (terms : List ((Nat × Nat × Nat) × Int)) : Int :=
  (terms.map fun t => t.2 * v t.1.1 t.1.2.1 t.1.2.2).sum

/-- Whether a valuation satisfies one constraint. -/
def satisfiesB (v : Nat → Nat → Nat → Int) (c : LinCon) : Bool :=
  match c.cmp with
  | .eq => evalTerms v c.terms == c.bound
  | .le => decide (evalTerms v c.terms ≤ c.bound)
  | .ge => decide (c.bound ≤ evalTerms v c.terms)

/-- CONSTRAINT 1 of the script: for every period and student, the sum over
all activities of the decision variable equals 1. -/
def constraints1 (cfg : Config) : List LinCon :=
  (List.range cfg.numPeriods).flatMap fun p =>
    (List.range (numStudents cfg)).map fun i =>
      { terms := (List.range (numActivities cfg)).map fun j => ((p, i, j), 1)
      , cmp := .eq, bound := 1 }

/-- CONSTRAINT 2 of the script: for every student and activity, the sum
over all periods is at most 1 (no repeated activity). -/
def constraints2 (cfg : Config) : List LinCon :=
  (List.range (numStudents cfg)).flatMap fun i =>
    (List.range (numActivities cfg)).map fun j =>
      { terms := (List.range cfg.numPeriods).map fun p => ((p, i, j), 1)
      , cmp := .le, bound := 1 }

/-- CONSTRAINT 3 of the script: for every period and activity, the sum over
all students is at least `MIN_NUM_IN_ACTIVITY`. -/
def constraints3 (cfg : Config) : List LinCon :=
  (List.range cfg.numPeriods).flatMap fun p =>
    (List.range (numActivities cfg)).map fun j =>
      { terms := (List.range (numStudents cfg)).map fun i => ((p, i, j), 1)
      , cmp := .ge, bound := cfg.minSize }

/-- CONSTRAINT 4 of the script: for every period and activity, the sum over
all students is at most `MAX_NUM_IN_ACTIVITY`. -/
def constraints4 (cfg : Config) : List LinCon :=
  (List.range cfg.numPeriods).flatMap fun p =>
    (List.range (numActivities cfg)).map fun j =>
      { terms := (List.range (numStudents cfg)).map fun i => ((p, i, j), 1)
      , cmp := .le, bound := cfg.maxSize }

/-- CONSTRAINT 5 of the script: for every student, the sum over all periods
and over the student's four choice ids equals 3. -/
def constraints5 (cfg : Config) : List LinCon :=
  (List.range (numStudents cfg)).map fun i =>
    { terms := (List.range cfg.numPeriods).flatMap fun p =>
        (choicesOf cfg i).map fun c => ((p, i, c), 1)
    , cmp := .eq, bound := 3 }

/-- The full constraint list of the model, in the order the script adds the
constraints to `prob`. -/
def buildConstraints (cfg : Config) : List LinCon :=
  constraints1 cfg ++ constraints2 cfg ++ constraints3 cfg ++
    constraints4 cfg ++ constraints5 cfg

/-- STEP 6 (objective): the objective's terms. For each period and student
the four decision variables of the student's ranked choices are weighted
1000, 100, 10 and 1, in the order the script appends them to
`objective_function_parts`. A student's choice list always has exactly four
entries, so the fallback arm is unreachable. -/
def objectiveTerms (cfg : Config) : List ((Nat × Nat × Nat) × Int) :=
  (List.range cfg.numPeriods).flatMap fun p =>
    (List.range (numStudents cfg)).flatMap fun i =>
      match choicesOf cfg i with
      | [c1, c2, c3, c4] => [((p, i, c1), 1000), ((p, i, c2), 100), ((p, i, c3), 10), ((p, i, c4), 1)]
      | _ => []

/-- The objective value of a valuation (the quantity PuLP maximizes). -/
def objectiveValue (cfg : Config) (v : Nat → Nat → Nat → Int) : Int :=
  evalTerms v (objectiveTerms cfg)

/-- Whether every decision variable of the model is 0 or 1 at `v`
(the `pulp.LpBinary` domain of every variable). -/
def binaryB (cfg : Config) (v : Nat → Nat → Nat → Int) : Bool :=
  (List.range cfg.numPeriods).all fun p =>
    (List.range (numStudents cfg)).all fun i =>
      (List.range (numActivities cfg)).all fun j =>
        v p i j == 0 || v p i j == 1

/-- Whether `v` is a feasible solution of the built model: every variable
binary and every constraint satisfied. Every solution the solver may
return with status optimal is feasible. -/
def feasibleB (cfg : Config) (v : Nat → Nat → Nat → Int) : Bool :=
  binaryB cfg v && (buildConstraints cfg).all (satisfiesB v)

/-- STEP 8 (extraction loop): the activity ids appended to
`student_info_dicts[i]['assignments']`, in loop order: periods outermost,
then activities; an id is appended when its variable's value is 1. -/
def assignedIds (cfg : Config) (v : Nat → Nat → Nat → Int) (i : Nat) : List Nat :=
  (List.range cfg.numPeriods).flatMap fun p =>
    (List.range (numActivities cfg)).filter fun j => v p i j == 1

/-- STEP 8: the same list mapped through `activities_dict_reverse`, giving
the assigned activity names in period order. -/
def assignmentsOf (cfg : Config) (v : Nat → Nat → Nat → Int) (i : Nat) : List String :=
  (assignedIds cfg v i).map fun j => cfg.activitiesList.getD j ""

/-- STEP 8 (results loop), one student: the row
`[name, choice1..choice4, assignment1..assignment3]`. The script's tuple
unpacks `choice1, ..., choice4 = choices` and
`assignment1, assignment2, assignment3 = assignments` raise (and abort the
run) unless the lists have exactly 4 and exactly 3 entries, which `none`
models. -/
def buildRow (info : StudentInfo) (assignments : List String) : Option (List String) :=
  match info.choicesFullNames, assignments with
  | [c1, c2, c3, c4], [a1, a2, a3] => some [info.name, c1, c2, c3, c4, a1, a2, a3]
  | _, _ => none

/-- STEP 8: the full `results` list, one row per student; `none` when any
student's row construction raises. -/
def resultsOf (cfg : Config) (v : Nat → Nat → Nat → Int) : Option (List (List String)) :=
  (List.range (numStudents cfg)).mapM fun i =>
    buildRow (infoOf cfg i) (assignmentsOf cfg v i)

/-- The header row the script writes to `assignment_outputs.csv`. -/
def outputHeaders : List String :=
  ["name", "choice1", "choice2", "choice3", "choice4",
   "assignment1", "assignment2", "assignment3", "assignment4"]

/-- PuLP status code for an optimal solve. -/
def LpStatusOptimal : Int := 1

/-- PuLP status code when the solver did not run or failed to solve. -/
def LpStatusNotSolved : Int := 0

/-- PuLP status code for an infeasible model. -/
def LpStatusInfeasible : Int := -1

/-- PuLP status code for an unbounded model. -/
def LpStatusUnbounded : Int := -2

/-- PuLP status code for an undefined solver outcome. -/
def LpStatusUndefined : Int := -3

/-- STEP 7: `assert solution_found == 1, "solution not found"` — status 1
lets the run continue, every other status aborts it with that one message. -/
def checkSolution (solutionFound : Int) : Except String Unit :=
  if solutionFound == 1 then Except.ok () else Except.error "solution not found"

/-- STEP 9: `got_choiceK = 1 if choiceK in assignments else 0` — a
membership test of one choice name against the assignment list. -/
def gotChoiceFlag (c : String) (assignments : List String) : Nat :=
  if c ∈ assignments then 1 else 0

/-- STEP 9: `got_choice1 + got_choice2 + got_choice3 + got_choice4` for one
student (the choice list always has exactly four names, so the fallback is
unreachable). -/
def studentChoiceFlagsSum (info : StudentInfo) (assignments : List String) : Nat :=
  match info.choicesFullNames with
  | [c1, c2, c3, c4] =>
      gotChoiceFlag c1 assignments + gotChoiceFlag c2 assignments +
        gotChoiceFlag c3 assignments + gotChoiceFlag c4 assignments
  | _ => 0

/-- STEP 9: `total_got_3_of_4`, the number of students whose flag sum is
exactly 3, recomputed from the extracted assignments alone. -/
def totalGot3of4 (cfg : Config) (v : Nat → Nat → Nat → Int) : Nat :=
  ((List.range (numStudents cfg)).filter fun i =>
    studentChoiceFlagsSum (infoOf cfg i) (assignmentsOf cfg v i) == 3).length



/-! ### General list lemmas -/

/-- Sum of a constant-zero map is zero. -/
lemma sum_map_const_zero {α : Type} (l : List α) :
    (l.map fun _ => (0 : Int)).sum = 0 := by
  induction l with
  | nil => simp
  | cons a t ih => simp [ih]

/-- Pointwise sum of maps splits. -/
lemma sum_map_add {α : Type} (l : List α) (g h : α → Int) :
    (l.map fun b => g b + h b).sum = (l.map g).sum + (l.map h).sum := by
  induction l with
  | nil => simp
  | cons a t ih => simp [ih]; ring

/-- A constant factor moves out of a mapped sum. -/
lemma sum_map_mul_left {α : Type} (l : List α) (w : Int) (g : α → Int) :
    (l.map fun b => w * g b).sum = w * (l.map g).sum := by
  induction l with
  | nil => simp
  | cons a t ih => simp [ih]; ring

/-- Sum over a flatMap is the sum of the inner sums. -/
lemma sum_map_flatMap {α β : Type} (l : List α) (f : α → List β) (g : β → Int) :
    ((l.flatMap f).map g).sum = (l.map fun a => ((f a).map g).sum).sum := by
  induction l with
  | nil => simp
  | cons a t ih => simp [List.flatMap_cons, ih]

/-- Double mapped sums over two lists commute. -/
lemma sum_map_swap {α β : Type} (la : List α) (lb : List β) (f : α → β → Int) :
    (la.map fun a => (lb.map fun b => f a b).sum).sum
      = (lb.map fun b => (la.map fun a => f a b).sum).sum := by
  induction la with
  | nil => simp [sum_map_const_zero]
  | cons a t ih =>
    simp only [List.map_cons, List.sum_cons, ih, sum_map_add]

/-- Sum of a 0/1-valued map counts the elements where the value is 1. -/
lemma sum_map_binary {α : Type} (L : List α) (f : α → Int)
    (h : ∀ x ∈ L, f x = 0 ∨ f x = 1) :
    (L.map f).sum = ((L.filter fun x => f x == 1).length : Int) := by
  induction L with
  | nil => simp
  | cons a t ih =>
    have ht : ∀ x ∈ t, f x = 0 ∨ f x = 1 := fun x hx => h x (List.mem_cons_of_mem a hx)
    rcases h a (List.mem_cons_self a t) with h0 | h1
    · simp [List.filter_cons, h0, ih ht]
    · simp [List.filter_cons, h1, ih ht]
      ring

/-- Sum of a constant-one Nat map is the length. -/
lemma sum_map_const_one {α : Type} (l : List α) :
    (l.map fun _ => (1 : Nat)).sum = l.length := by
  induction l with
  | nil => simp
  | cons a t ih => simp [ih]; omega

/-- Length of a flatMap is the sum of the inner lengths. -/
lemma length_flatMap' {α β : Type} (l : List α) (f : α → List β) :
    (l.flatMap f).length = (l.map fun a => (f a).length).sum := by
  induction l with
  | nil => simp
  | cons a t ih => simp [List.flatMap_cons, ih]

/-- Count in a flatMap is the sum of the inner counts. -/
lemma count_flatMap' {α β : Type} [BEq β] (l : List α) (f : α → List β) (b : β) :
    (l.flatMap f).count b = (l.map fun a => (f a).count b).sum := by
  induction l with
  | nil => simp
  | cons a t ih => simp [List.flatMap_cons, List.count_append, ih]

/-- A list has length 3 exactly when it is a three-element list. -/
lemma length_eq_three_iff {α : Type} (l : List α) :
    l.length = 3 ↔ ∃ a b c, l = [a, b, c] := by
  constructor
  · intro h
    match l, h with
    | [a, b, c], _ => exact ⟨a, b, c, rfl⟩
  · rintro ⟨a, b, c, rfl⟩
    rfl


/-! ### Bridge lemmas: from feasibility to per-constraint facts -/

/-- A student's choice-id list always has exactly four entries. -/
lemma choicesOf_length (cfg : Config) (i : Nat) : (choicesOf cfg i).length = 4 := rfl

/-- Unfolding of the binarity part of feasibility. -/
lemma feasible_binary {cfg : Config} {v : Nat → Nat → Nat → Int}
    (hf : feasibleB cfg v = true) {p i j : Nat}
    (hp : p < cfg.numPeriods) (hi : i < numStudents cfg) (hj : j < numActivities cfg) :
    v p i j = 0 ∨ v p i j = 1 := by
  have hb : binaryB cfg v = true := by
    have := hf
    simp only [feasibleB, Bool.and_eq_true] at this
    exact this.1
  simp only [binaryB, List.all_eq_true, List.mem_range, Bool.or_eq_true, beq_iff_eq] at hb
  exact hb p hp i hi j hj

/-- A feasible valuation satisfies every constraint of the model. -/
lemma feasible_sat {cfg : Config} {v : Nat → Nat → Nat → Int}
    (hf : feasibleB cfg v = true) {c : LinCon}
    (hc : c ∈ buildConstraints cfg) : satisfiesB v c = true := by
  have := hf
  simp only [feasibleB, Bool.and_eq_true, List.all_eq_true] at this
  exact this.2 c hc

/-- Value of an expression whose terms all have coefficient 1. -/
lemma evalTerms_map_one {α : Type} (v : Nat → Nat → Nat → Int) (L : List α)
    (g : α → Nat × Nat × Nat) :
    evalTerms v (L.map fun a => (g a, (1 : Int)))
      = (L.map fun a => v (g a).1 (g a).2.1 (g a).2.2).sum := by
  have hfun : ((fun t => t.2 * v t.1.1 t.1.2.1 t.1.2.2) ∘ fun a => ((g a), (1 : Int)))
      = fun a => v (g a).1 (g a).2.1 (g a).2.2 := by
    funext a
    simp [Function.comp]
  rw [evalTerms, List.map_map, hfun]

/-- Value of an expression assembled by a flatMap of term lists. -/
lemma evalTerms_flatMap {α : Type} (v : Nat → Nat → Nat → Int) (l : List α)
    (F : α → List ((Nat × Nat × Nat) × Int)) :
    evalTerms v (l.flatMap F) = (l.map fun a => evalTerms v (F a)).sum := by
  rw [evalTerms, sum_map_flatMap]
  rfl

/-- The per-period exclusivity constraint of period `p` and student `i` is
in the built model. -/
lemma con1_mem {cfg : Config} {p i : Nat}
    (hp : p < cfg.numPeriods) (hi : i < numStudents cfg) :
    (⟨(List.range (numActivities cfg)).map fun j => ((p, i, j), 1), Cmp.eq, 1⟩ : LinCon)
      ∈ buildConstraints cfg := by
  apply List.mem_append_left
  apply List.mem_append_left
  apply List.mem_append_left
  apply List.mem_append_left
  simp only [constraints1, List.mem_flatMap, List.mem_map, List.mem_range]
  exact ⟨p, hp, i, hi, rfl⟩

/-- The no-repeat constraint of student `i` and activity `j` is in the
built model. -/
lemma con2_mem {cfg : Config} {i j : Nat}
    (hi : i < numStudents cfg) (hj : j < numActivities cfg) :
    (⟨(List.range cfg.numPeriods).map fun p => ((p, i, j), 1), Cmp.le, 1⟩ : LinCon)
      ∈ buildConstraints cfg := by
  apply List.mem_append_left
  apply List.mem_append_left
  apply List.mem_append_left
  apply List.mem_append_right
  simp only [constraints2, List.mem_flatMap, List.mem_map, List.mem_range]
  exact ⟨i, hi, j, hj, rfl⟩

/-- The minimum-capacity constraint of period `p` and activity `j` is in
the built model. -/
lemma con3_mem {cfg : Config} {p j : Nat}
    (hp : p < cfg.numPeriods) (hj : j < numActivities cfg) :
    (⟨(List.range (numStudents cfg)).map fun i => ((p, i, j), 1), Cmp.ge, cfg.minSize⟩ : LinCon)
      ∈ buildConstraints cfg := by
  apply List.mem_append_left
  apply List.mem_append_left
  apply List.mem_append_right
  simp only [constraints3, List.mem_flatMap, List.mem_map, List.mem_range]
  exact ⟨p, hp, j, hj, rfl⟩

/-- The maximum-capacity constraint of period `p` and activity `j` is in
the built model. -/
lemma con4_mem {cfg : Config} {p j : Nat}
    (hp : p < cfg.numPeriods) (hj : j < numActivities cfg) :
    (⟨(List.range (numStudents cfg)).map fun i => ((p, i, j), 1), Cmp.le, cfg.maxSize⟩ : LinCon)
      ∈ buildConstraints cfg := by
  apply List.mem_append_left
  apply List.mem_append_right
  simp only [constraints4, List.mem_flatMap, List.mem_map, List.mem_range]
  exact ⟨p, hp, j, hj, rfl⟩

/-- The preference-satisfaction constraint of student `i` is in the built
model. -/
lemma con5_mem {cfg : Config} {i : Nat} (hi : i < numStudents cfg) :
    (⟨(List.range cfg.numPeriods).flatMap fun p =>
        (choicesOf cfg i).map fun c => ((p, i, c), 1), Cmp.eq, 3⟩ : LinCon)
      ∈ buildConstraints cfg := by
  apply List.mem_append_right
  simp only [constraints5, List.mem_map, List.mem_range]
  exact ⟨i, hi, rfl⟩

/-- Feasibility makes each per-(period, student) activity sum equal 1. -/
lemma con1_sum {cfg : Config} {v : Nat → Nat → Nat → Int}
    (hf : feasibleB cfg v = true) {p i : Nat}
    (hp : p < cfg.numPeriods) (hi : i < numStudents cfg) :
    ((List.range (numActivities cfg)).map fun j => v p i j).sum = 1 := by
  have h := feasible_sat hf (con1_mem hp hi)
  simp only [satisfiesB, beq_iff_eq] at h
  rw [evalTerms_map_one] at h
  exact h

/-- Feasibility bounds each per-(student, activity) period sum by 1. -/
lemma con2_sum {cfg : Config} {v : Nat → Nat → Nat → Int}
    (hf : feasibleB cfg v = true) {i j : Nat}
    (hi : i < numStudents cfg) (hj : j < numActivities cfg) :
    ((List.range cfg.numPeriods).map fun p => v p i j).sum ≤ 1 := by
  have h := feasible_sat hf (con2_mem hi hj)
  simp only [satisfiesB, decide_eq_true_eq] at h
  rw [evalTerms_map_one] at h
  exact h

/-- Feasibility bounds each per-(period, activity) student sum below. -/
lemma con3_sum {cfg : Config} {v : Nat → Nat → Nat → Int}
    (hf : feasibleB cfg v = true) {p j : Nat}
    (hp : p < cfg.numPeriods) (hj : j < numActivities cfg) :
    cfg.minSize ≤ ((List.range (numStudents cfg)).map fun i => v p i j).sum := by
  have h := feasible_sat hf (con3_mem hp hj)
  simp only [satisfiesB, decide_eq_true_eq] at h
  rw [evalTerms_map_one] at h
  exact h

/-- Feasibility bounds each per-(period, activity) student sum above. -/
lemma con4_sum {cfg : Config} {v : Nat → Nat → Nat → Int}
    (hf : feasibleB cfg v = true) {p j : Nat}
    (hp : p < cfg.numPeriods) (hj : j < numActivities cfg) :
    ((List.range (numStudents cfg)).map fun i => v p i j).sum ≤ cfg.maxSize := by
  have h := feasible_sat hf (con4_mem hp hj)
  simp only [satisfiesB, decide_eq_true_eq] at h
  rw [evalTerms_map_one] at h
  exact h

/-- Feasibility makes each student's preference sum equal 3 (summed with
periods outermost, as the constraint is built). -/
lemma con5_sum {cfg : Config} {v : Nat → Nat → Nat → Int}
    (hf : feasibleB cfg v = true) {i : Nat} (hi : i < numStudents cfg) :
    ((List.range cfg.numPeriods).map fun p =>
      ((choicesOf cfg i).map fun c => v p i c).sum).sum = 3 := by
  have h := feasible_sat hf (con5_mem hi)
  simp only [satisfiesB, beq_iff_eq] at h
  rw [evalTerms_flatMap] at h
  have : ∀ p, evalTerms v ((choicesOf cfg i).map fun c => ((p, i, c), 1))
      = ((choicesOf cfg i).map fun c => v p i c).sum := by
    intro p
    rw [evalTerms_map_one]
  simp only [this] at h
  exact h



/-! ### Counting consequences of feasibility -/

/-- Sum of a map that is 1 on every member is the length. -/
lemma sum_map_eq_length_of_forall_one {α : Type} (l : List α) (f : α → Nat)
    (h : ∀ a ∈ l, f a = 1) : (l.map f).sum = l.length := by
  induction l with
  | nil => simp
  | cons a t ih =>
    have ha := h a (List.mem_cons_self a t)
    have ht := ih fun x hx => h x (List.mem_cons_of_mem a hx)
    simp [ha, ht]
    omega

/-- Sum of an indicator map is the length of the filtered list. -/
lemma sum_map_ite_one {α : Type} (l : List α) (q : α → Bool) :
    (l.map fun a => if q a then (1 : Nat) else 0).sum = (l.filter q).length := by
  induction l with
  | nil => simp
  | cons a t ih =>
    by_cases hq : q a
    · simp [List.filter_cons, hq, ih]
      omega
    · simp [List.filter_cons, hq, ih]

/-- In a feasible solution, exactly one activity variable of each
(period, student) pair has value 1. -/
lemma activity_filter_length_one {cfg : Config} {v : Nat → Nat → Nat → Int}
    (hf : feasibleB cfg v = true) {p i : Nat}
    (hp : p < cfg.numPeriods) (hi : i < numStudents cfg) :
    ((List.range (numActivities cfg)).filter fun j => v p i j == 1).length = 1 := by
  have hsum := con1_sum hf hp hi
  have hbin : ∀ j ∈ List.range (numActivities cfg), v p i j = 0 ∨ v p i j = 1 :=
    fun j hj => feasible_binary hf hp hi (List.mem_range.mp hj)
  rw [sum_map_binary _ _ hbin] at hsum
  exact_mod_cast hsum

/-- In a feasible solution, at most one period variable of each
(student, activity) pair has value 1. -/
lemma period_filter_length_le_one {cfg : Config} {v : Nat → Nat → Nat → Int}
    (hf : feasibleB cfg v = true) {i j : Nat}
    (hi : i < numStudents cfg) (hj : j < numActivities cfg) :
    ((List.range cfg.numPeriods).filter fun p => v p i j == 1).length ≤ 1 := by
  have hsum := con2_sum hf hi hj
  have hbin : ∀ p ∈ List.range cfg.numPeriods, v p i j = 0 ∨ v p i j = 1 :=
    fun p hp => feasible_binary hf (List.mem_range.mp hp) hi hj
  rw [sum_map_binary _ _ hbin] at hsum
  exact_mod_cast hsum

/-- In a feasible solution, the number of students of each
(period, activity) pair lies within the capacity bounds. -/
lemma student_filter_length_bounds {cfg : Config} {v : Nat → Nat → Nat → Int}
    (hf : feasibleB cfg v = true) {p j : Nat}
    (hp : p < cfg.numPeriods) (hj : j < numActivities cfg) :
    cfg.minSize ≤ (((List.range (numStudents cfg)).filter fun i => v p i j == 1).length : Int) ∧
      (((List.range (numStudents cfg)).filter fun i => v p i j == 1).length : Int) ≤ cfg.maxSize := by
  have h3 := con3_sum hf hp hj
  have h4 := con4_sum hf hp hj
  have hbin : ∀ i ∈ List.range (numStudents cfg), v p i j = 0 ∨ v p i j = 1 :=
    fun i hi => feasible_binary hf hp (List.mem_range.mp hi) hj
  rw [sum_map_binary _ _ hbin] at h3 h4
  exact ⟨h3, h4⟩

/-- Membership in the extracted id list. -/
lemma mem_assignedIds {cfg : Config} {v : Nat → Nat → Nat → Int} {i c : Nat} :
    c ∈ assignedIds cfg v i
      ↔ ∃ p, p < cfg.numPeriods ∧ c < numActivities cfg ∧ v p i c = 1 := by
  simp [assignedIds, List.mem_flatMap, List.mem_filter, List.mem_range, beq_iff_eq, and_assoc]

/-- For a feasible solution the extracted id list has one entry per period. -/
lemma assignedIds_length {cfg : Config} {v : Nat → Nat → Nat → Int}
    (hf : feasibleB cfg v = true) {i : Nat} (hi : i < numStudents cfg) :
    (assignedIds cfg v i).length = cfg.numPeriods := by
  rw [assignedIds, length_flatMap']
  rw [sum_map_eq_length_of_forall_one _ _ fun p hp =>
    activity_filter_length_one hf (List.mem_range.mp hp) hi]
  exact List.length_range cfg.numPeriods

/-- The period-`p` entry of a feasible student's extraction satisfies the
one-per-period property; every id appears at most once in the whole list. -/
lemma count_assignedIds_le_one {cfg : Config} {v : Nat → Nat → Nat → Int}
    (hf : feasibleB cfg v = true) {i : Nat} (hi : i < numStudents cfg) (j : Nat) :
    (assignedIds cfg v i).count j ≤ 1 := by
  by_cases hj : j < numActivities cfg
  · rw [assignedIds, count_flatMap']
    have hcount : ∀ p ∈ List.range cfg.numPeriods,
        ((List.range (numActivities cfg)).filter fun a => v p i a == 1).count j
          = if v p i j == 1 then 1 else 0 := by
      intro p _
      by_cases hv : v p i j == 1
      · rw [List.count_filter (p := fun a => v p i a == 1) hv, if_pos hv]
        exact List.count_eq_one_of_mem (List.nodup_range _) (List.mem_range.mpr hj)
      · rw [if_neg hv, List.count_eq_zero]
        intro hmem
        exact hv ((List.mem_filter.mp hmem).2)
    calc ((List.range cfg.numPeriods).map fun p =>
            ((List.range (numActivities cfg)).filter fun a => v p i a == 1).count j).sum
        = ((List.range cfg.numPeriods).map fun p => if v p i j == 1 then 1 else 0).sum := by
          apply List.map_congr_left at hcount
          rw [hcount]
      _ = ((List.range cfg.numPeriods).filter fun p => v p i j == 1).length :=
          sum_map_ite_one _ _
      _ ≤ 1 := period_filter_length_le_one hf hi hj
  · have h0 : (assignedIds cfg v i).count j = 0 :=
      List.count_eq_zero.mpr fun hmem => by
        obtain ⟨q, _, hc, _⟩ := mem_assignedIds.mp hmem
        exact hj hc
    omega



/-- The period sum of one (student, activity) pair counts the periods in
which the variable is 1. -/
lemma period_sum_eq_filter_length {cfg : Config} {v : Nat → Nat → Nat → Int}
    (hf : feasibleB cfg v = true) {i c : Nat}
    (hi : i < numStudents cfg) (hc : c < numActivities cfg) :
    ((List.range cfg.numPeriods).map fun p => v p i c).sum
      = (((List.range cfg.numPeriods).filter fun p => v p i c == 1).length : Int) :=
  sum_map_binary _ _ fun _ hq => feasible_binary hf (List.mem_range.mp hq) hi hc

/-- For each choice id of a feasible student, the period sum is 0 or 1. -/
lemma period_sum_binary {cfg : Config} {v : Nat → Nat → Nat → Int}
    (hf : feasibleB cfg v = true) {i c : Nat}
    (hi : i < numStudents cfg) (hc : c < numActivities cfg) :
    ((List.range cfg.numPeriods).map fun p => v p i c).sum = 0 ∨
      ((List.range cfg.numPeriods).map fun p => v p i c).sum = 1 := by
  have hle := con2_sum hf hi hc
  have hge : 0 ≤ ((List.range cfg.numPeriods).map fun p => v p i c).sum := by
    apply List.sum_nonneg
    intro x hx
    obtain ⟨p, hp, rfl⟩ := List.mem_map.mp hx
    rcases feasible_binary hf (List.mem_range.mp hp) hi hc with h | h <;> omega
  omega

/-- The period sum of one (student, activity) pair is 1 exactly when the
activity shows up in the student's extracted id list. -/
lemma period_sum_eq_one_iff {cfg : Config} {v : Nat → Nat → Nat → Int}
    (hf : feasibleB cfg v = true) {i c : Nat}
    (hi : i < numStudents cfg) (hc : c < numActivities cfg) :
    ((List.range cfg.numPeriods).map fun p => v p i c).sum = 1
      ↔ c ∈ assignedIds cfg v i := by
  rw [period_sum_eq_filter_length hf hi hc, mem_assignedIds]
  have hlen := period_filter_length_le_one hf hi hc
  constructor
  · intro h1
    have : ((List.range cfg.numPeriods).filter fun p => v p i c == 1).length = 1 := by
      exact_mod_cast h1
    have hne : ((List.range cfg.numPeriods).filter fun p => v p i c == 1) ≠ [] := by
      intro hnil
      rw [hnil] at this
      simp at this
    obtain ⟨q, hq⟩ := List.exists_mem_of_ne_nil _ hne
    have hmem := List.mem_filter.mp hq
    exact ⟨q, List.mem_range.mp hmem.1, hc, by simpa using hmem.2⟩
  · rintro ⟨p, hp, _, hv⟩
    have hmem : p ∈ (List.range cfg.numPeriods).filter fun p => v p i c == 1 :=
      List.mem_filter.mpr ⟨List.mem_range.mpr hp, by simp [hv]⟩
    have hpos : 0 < ((List.range cfg.numPeriods).filter fun p => v p i c == 1).length :=
      List.length_pos.mpr fun hnil => by rw [hnil] at hmem; cases hmem
    have : ((List.range cfg.numPeriods).filter fun p => v p i c == 1).length = 1 := by
      omega
    exact_mod_cast this

/-- Core of C1 and C8: a feasible student's four ranked choices contribute
exactly three matches to the extracted assignment. -/
lemma matched_choices_length {cfg : Config} {v : Nat → Nat → Nat → Int}
    (hf : feasibleB cfg v = true) {i : Nat} (hi : i < numStudents cfg)
    (hvalid : ∀ c ∈ choicesOf cfg i, c < numActivities cfg) :
    ((choicesOf cfg i).filter fun c => decide (c ∈ assignedIds cfg v i)).length = 3 := by
  have h5 := con5_sum hf hi
  rw [sum_map_swap] at h5
  have hbin : ∀ c ∈ choicesOf cfg i,
      ((List.range cfg.numPeriods).map fun p => v p i c).sum = 0 ∨
        ((List.range cfg.numPeriods).map fun p => v p i c).sum = 1 :=
    fun c hc => period_sum_binary hf hi (hvalid c hc)
  rw [sum_map_binary _ _ hbin] at h5
  have hcongr : ((choicesOf cfg i).filter fun c =>
        ((List.range cfg.numPeriods).map fun p => v p i c).sum == 1)
      = (choicesOf cfg i).filter fun c => decide (c ∈ assignedIds cfg v i) := by
    apply List.filter_congr
    intro c hc
    have hiff := period_sum_eq_one_iff hf hi (hvalid c hc)
    rw [Bool.eq_iff_iff]
    simp only [beq_iff_eq, decide_eq_true_eq]
    exact hiff
  rw [hcongr] at h5
  exact_mod_cast h5



/-! ### Concrete sample run used by the witnesses -/

/-- Sample configuration: four activities, three periods, capacity bounds
[0, 1], and one student ranking all four activities in catalog order. -/
def cfgW : Config :=
  { activitiesList := ["100ChartPicture", "BubbleMania", "Closeto20", "Measuring"]
  , numPeriods := 3
  , minSize := 0
  , maxSize := 1
  , rows := [⟨"Ada", "Lovelace", "100ChartPicture", "BubbleMania", "Closeto20", "Measuring"⟩] }

/-- Sample feasible solution for `cfgW`: the single student does activity
`p` in period `p`, so choices 1–3 are honored and choice 4 is not. -/
def solW : Nat → Nat → Nat → Int :=
  fun p i j => if i = 0 ∧ j = p ∧ p < 3 then 1 else 0

/-! ### Claim theorems -/

/-- C1: for every student `i`, the built model contains the hard equality
constraint summing the student's preference variables over all periods to
exactly 3, and consequently every feasible (in particular every optimal)
assignment contains exactly 3 of the student's 4 ranked preferences. -/
theorem C1_preference_satisfaction (cfg : Config) (v : Nat → Nat → Nat → Int)
    (i : Nat) (hi : i < numStudents cfg) (hf : feasibleB cfg v = true)
    (hvalid : ∀ c ∈ choicesOf cfg i, c < numActivities cfg) :
    (⟨(List.range cfg.numPeriods).flatMap fun p =>
        (choicesOf cfg i).map fun c => ((p, i, c), 1), Cmp.eq, 3⟩ : LinCon)
        ∈ buildConstraints cfg ∧
      ((choicesOf cfg i).filter fun c => decide (c ∈ assignedIds cfg v i)).length = 3 :=
  ⟨con5_mem hi, matched_choices_length hf hi hvalid⟩

/-- Witness for C1 at the sample run: the single student of `cfgW` has a
preference-satisfaction constraint in the model and 3 of 4 matches. -/
theorem C1_witness :
    (0 < numStudents cfgW ∧ feasibleB cfgW solW = true ∧
      ∀ c ∈ choicesOf cfgW 0, c < numActivities cfgW) ∧
    ((⟨(List.range cfgW.numPeriods).flatMap fun p =>
        (choicesOf cfgW 0).map fun c => ((p, 0, c), 1), Cmp.eq, 3⟩ : LinCon)
        ∈ buildConstraints cfgW ∧
      ((choicesOf cfgW 0).filter fun c => decide (c ∈ assignedIds cfgW solW 0)).length = 3) :=
  ⟨⟨by decide, by decide, by decide⟩,
    C1_preference_satisfaction cfgW solW 0 (by decide) (by decide) (by decide)⟩

/-- C3: for every period `p` and student `i`, the built model contains the
equality constraint summing the student's activity variables of that period
to exactly 1, and consequently every feasible assignment gives the student
exactly one activity in that period. -/
theorem C3_per_period_exclusivity (cfg : Config) (v : Nat → Nat → Nat → Int)
    (p i : Nat) (hp : p < cfg.numPeriods) (hi : i < numStudents cfg)
    (hf : feasibleB cfg v = true) :
    (⟨(List.range (numActivities cfg)).map fun j => ((p, i, j), 1), Cmp.eq, 1⟩ : LinCon)
        ∈ buildConstraints cfg ∧
      ((List.range (numActivities cfg)).filter fun j => v p i j == 1).length = 1 :=
  ⟨con1_mem hp hi, activity_filter_length_one hf hp hi⟩

/-- Witness for C3 at the sample run, period 0, student 0. -/
theorem C3_witness :
    (0 < cfgW.numPeriods ∧ 0 < numStudents cfgW ∧ feasibleB cfgW solW = true) ∧
    ((⟨(List.range (numActivities cfgW)).map fun j => ((0, 0, j), 1), Cmp.eq, 1⟩ : LinCon)
        ∈ buildConstraints cfgW ∧
      ((List.range (numActivities cfgW)).filter fun j => solW 0 0 j == 1).length = 1) :=
  ⟨⟨by decide, by decide, by decide⟩,
    C3_per_period_exclusivity cfgW solW 0 0 (by decide) (by decide) (by decide)⟩

/-- C4: for every student `i` and activity `j`, the built model contains the
constraint bounding the period sum of that pair by 1, and consequently no
activity appears more than once in the student's extracted assignment
sequence. -/
theorem C4_no_repeat (cfg : Config) (v : Nat → Nat → Nat → Int)
    (i j : Nat) (hi : i < numStudents cfg) (hj : j < numActivities cfg)
    (hf : feasibleB cfg v = true) :
    (⟨(List.range cfg.numPeriods).map fun p => ((p, i, j), 1), Cmp.le, 1⟩ : LinCon)
        ∈ buildConstraints cfg ∧
      (assignedIds cfg v i).count j ≤ 1 :=
  ⟨con2_mem hi hj, count_assignedIds_le_one hf hi j⟩

/-- Witness for C4 at the sample run, student 0, activity 0. -/
theorem C4_witness :
    (0 < numStudents cfgW ∧ 0 < numActivities cfgW ∧ feasibleB cfgW solW = true) ∧
    ((⟨(List.range cfgW.numPeriods).map fun p => ((p, 0, 0), 1), Cmp.le, 1⟩ : LinCon)
        ∈ buildConstraints cfgW ∧
      (assignedIds cfgW solW 0).count 0 ≤ 1) :=
  ⟨⟨by decide, by decide, by decide⟩,
    C4_no_repeat cfgW solW 0 0 (by decide) (by decide) (by decide)⟩

/-- C5: for every period `p` and activity `j`, the built model contains the
two capacity constraints (student sum at least `minSize`, at most
`maxSize`), and consequently the number of students of every
(period, activity) pair of a feasible assignment lies within
[`minSize`, `maxSize`]. -/
theorem C5_capacity (cfg : Config) (v : Nat → Nat → Nat → Int)
    (p j : Nat) (hp : p < cfg.numPeriods) (hj : j < numActivities cfg)
    (hf : feasibleB cfg v = true) :
    ((⟨(List.range (numStudents cfg)).map fun i => ((p, i, j), 1), Cmp.ge, cfg.minSize⟩ : LinCon)
        ∈ buildConstraints cfg ∧
      (⟨(List.range (numStudents cfg)).map fun i => ((p, i, j), 1), Cmp.le, cfg.maxSize⟩ : LinCon)
        ∈ buildConstraints cfg) ∧
    (cfg.minSize ≤ (((List.range (numStudents cfg)).filter fun i => v p i j == 1).length : Int) ∧
      (((List.range (numStudents cfg)).filter fun i => v p i j == 1).length : Int) ≤ cfg.maxSize) :=
  ⟨⟨con3_mem hp hj, con4_mem hp hj⟩, student_filter_length_bounds hf hp hj⟩

/-- Witness for C5 at the sample run, period 0, activity 0. -/
theorem C5_witness :
    (0 < cfgW.numPeriods ∧ 0 < numActivities cfgW ∧ feasibleB cfgW solW = true) ∧
    (((⟨(List.range (numStudents cfgW)).map fun i => ((0, i, 0), 1), Cmp.ge, cfgW.minSize⟩ : LinCon)
        ∈ buildConstraints cfgW ∧
      (⟨(List.range (numStudents cfgW)).map fun i => ((0, i, 0), 1), Cmp.le, cfgW.maxSize⟩ : LinCon)
        ∈ buildConstraints cfgW) ∧
    (cfgW.minSize ≤ (((List.range (numStudents cfgW)).filter fun i => solW 0 i 0 == 1).length : Int) ∧
      (((List.range (numStudents cfgW)).filter fun i => solW 0 i 0 == 1).length : Int) ≤ cfgW.maxSize)) :=
  ⟨⟨by decide, by decide, by decide⟩,
    C5_capacity cfgW solW 0 0 (by decide) (by decide) (by decide)⟩



/-! ### Objective characterization (C6) -/

/-- The rank-`k` choice id of student `i` (ranks 0–3 for choices 1–4). -/
def choiceAt (cfg : Config) (i k : Nat) : Nat := (choicesOf cfg i).getD k 0

/-- A student's choice-id list, spelled out rank by rank. -/
lemma choicesOf_eq_explicit (cfg : Config) (i : Nat) :
    choicesOf cfg i
      = [choiceAt cfg i 0, choiceAt cfg i 1, choiceAt cfg i 2, choiceAt cfg i 3] := rfl

/-- Each of the four ranks names a member of the choice list. -/
lemma choiceAt_mem (cfg : Config) (i k : Nat) (hk : k < 4) :
    choiceAt cfg i k ∈ choicesOf cfg i := by
  interval_cases k <;> rw [choicesOf_eq_explicit] <;> simp

/-- Unfolded binarity of a single variable. -/
lemma binary_val {cfg : Config} {v : Nat → Nat → Nat → Int}
    (hb : binaryB cfg v = true) {p i j : Nat}
    (hp : p < cfg.numPeriods) (hi : i < numStudents cfg) (hj : j < numActivities cfg) :
    v p i j = 0 ∨ v p i j = 1 := by
  simp only [binaryB, List.all_eq_true, List.mem_range, Bool.or_eq_true, beq_iff_eq] at hb
  exact hb p hp i hi j hj

/-- Statement device for the objective: the number of (period, student)
pairs whose rank-`k` preference variable has value 1 — "rank-k matches
summed across all students and all periods" in the spec's words. -/
def rankMatchCount (cfg : Config) (v : Nat → Nat → Nat → Int) (k : Nat) : Nat :=
  ((List.range cfg.numPeriods).flatMap fun p =>
    (List.range (numStudents cfg)).filter fun i => v p i (choiceAt cfg i k) == 1).length

/-- A sum of four pointwise addends splits into four sums. -/
lemma sum_map_add4 {α : Type} (l : List α) (f1 f2 f3 f4 : α → Int) :
    (l.map fun a => f1 a + f2 a + f3 a + f4 a).sum
      = (l.map f1).sum + (l.map f2).sum + (l.map f3).sum + (l.map f4).sum := by
  induction l with
  | nil => simp
  | cons a t ih =>
    simp [ih]
    ring

/-- Casting a sum of naturals to the integers commutes with the map. -/
lemma sum_map_natCast {α : Type} (l : List α) (f : α → Nat) :
    (l.map fun a => ((f a : Nat) : Int)).sum = (((l.map f).sum : Nat) : Int) := by
  induction l with
  | nil => simp
  | cons a t ih => simp [ih]

/-- The built objective term list, spelled out with the per-rank weights
1000/100/10/1 (the fallback arm of the source construction is unreachable
because every choice list has exactly four entries). -/
lemma objectiveTerms_eq (cfg : Config) :
    objectiveTerms cfg = (List.range cfg.numPeriods).flatMap fun p =>
        (List.range (numStudents cfg)).flatMap fun i =>
          [((p, i, choiceAt cfg i 0), 1000), ((p, i, choiceAt cfg i 1), 100),
           ((p, i, choiceAt cfg i 2), 10), ((p, i, choiceAt cfg i 3), 1)] := rfl

/-- The double period/student sum of one rank's variables counts that
rank's matches. -/
lemma rank_total {cfg : Config} {v : Nat → Nat → Nat → Int}
    (hb : binaryB cfg v = true) (k : Nat) (hk : k < 4)
    (hvalid : ∀ i, i < numStudents cfg → ∀ c ∈ choicesOf cfg i, c < numActivities cfg) :
    ((List.range cfg.numPeriods).map fun p =>
       ((List.range (numStudents cfg)).map fun i => v p i (choiceAt cfg i k)).sum).sum
      = (rankMatchCount cfg v k : Int) := by
  have hin : ∀ p ∈ List.range cfg.numPeriods,
      ((List.range (numStudents cfg)).map fun i => v p i (choiceAt cfg i k)).sum
        = ((((List.range (numStudents cfg)).filter
              fun i => v p i (choiceAt cfg i k) == 1).length : Nat) : Int) := by
    intro p hp
    apply sum_map_binary
    intro i hi
    exact binary_val hb (List.mem_range.mp hp) (List.mem_range.mp hi)
      (hvalid i (List.mem_range.mp hi) _ (choiceAt_mem cfg i k hk))
  rw [List.map_congr_left hin, sum_map_natCast, rankMatchCount, length_flatMap']



/-- C6: the objective is exactly the rank-weighted sum — spelled out, its
term list covers precisely each student's four ranked preference variables
at every period with weights 1000/100/10/1; every term's activity is one of
its student's preferences (all other variables contribute 0); and for a
binary valuation its value is 1000, 100, 10 and 1 times the respective
counts of rank-1..4 matches over all students and periods. -/
theorem C6_objective (cfg : Config) (v : Nat → Nat → Nat → Int)
    (hb : binaryB cfg v = true)
    (hvalid : ∀ i, i < numStudents cfg → ∀ c ∈ choicesOf cfg i, c < numActivities cfg) :
    (objectiveTerms cfg = (List.range cfg.numPeriods).flatMap fun p =>
        (List.range (numStudents cfg)).flatMap fun i =>
          [((p, i, choiceAt cfg i 0), 1000), ((p, i, choiceAt cfg i 1), 100),
           ((p, i, choiceAt cfg i 2), 10), ((p, i, choiceAt cfg i 3), 1)]) ∧
    (∀ t ∈ objectiveTerms cfg, t.1.2.2 ∈ choicesOf cfg t.1.2.1) ∧
    objectiveValue cfg v
      = 1000 * (rankMatchCount cfg v 0 : Int) + 100 * (rankMatchCount cfg v 1 : Int)
          + 10 * (rankMatchCount cfg v 2 : Int) + (rankMatchCount cfg v 3 : Int) := by
  refine ⟨objectiveTerms_eq cfg, ?_, ?_⟩
  · intro t ht
    rw [objectiveTerms_eq] at ht
    simp only [List.mem_flatMap, List.mem_range] at ht
    obtain ⟨p, hp, i, hi, hmem⟩ := ht
    simp only [List.mem_cons, List.not_mem_nil, or_false] at hmem
    rcases hmem with h | h | h | h <;>
      · subst h
        rw [choicesOf_eq_explicit]
        simp
  · rw [objectiveValue, objectiveTerms_eq, evalTerms_flatMap]
    have hip : ∀ p ∈ List.range cfg.numPeriods,
        evalTerms v ((List.range (numStudents cfg)).flatMap fun i =>
          [((p, i, choiceAt cfg i 0), 1000), ((p, i, choiceAt cfg i 1), 100),
           ((p, i, choiceAt cfg i 2), 10), ((p, i, choiceAt cfg i 3), 1)])
        = ((List.range (numStudents cfg)).map fun i =>
            1000 * v p i (choiceAt cfg i 0) + 100 * v p i (choiceAt cfg i 1)
              + 10 * v p i (choiceAt cfg i 2) + v p i (choiceAt cfg i 3)).sum := by
      intro p _
      rw [evalTerms_flatMap]
      apply congrArg List.sum
      apply List.map_congr_left
      intro i _
      simp [evalTerms]
      ring
    rw [List.map_congr_left hip]
    have hsplit : ∀ p ∈ List.range cfg.numPeriods,
        ((List.range (numStudents cfg)).map fun i =>
            1000 * v p i (choiceAt cfg i 0) + 100 * v p i (choiceAt cfg i 1)
              + 10 * v p i (choiceAt cfg i 2) + v p i (choiceAt cfg i 3)).sum
        = 1000 * ((List.range (numStudents cfg)).map fun i => v p i (choiceAt cfg i 0)).sum
            + 100 * ((List.range (numStudents cfg)).map fun i => v p i (choiceAt cfg i 1)).sum
            + 10 * ((List.range (numStudents cfg)).map fun i => v p i (choiceAt cfg i 2)).sum
            + ((List.range (numStudents cfg)).map fun i => v p i (choiceAt cfg i 3)).sum := by
      intro p _
      rw [sum_map_add4, sum_map_mul_left, sum_map_mul_left, sum_map_mul_left]
    rw [List.map_congr_left hsplit, sum_map_add4,
      sum_map_mul_left, sum_map_mul_left, sum_map_mul_left,
      rank_total hb 0 (by omega) hvalid, rank_total hb 1 (by omega) hvalid,
      rank_total hb 2 (by omega) hvalid, rank_total hb 3 (by omega) hvalid]

/-- Witness for C6 at the sample run. -/
theorem C6_witness :
    (binaryB cfgW solW = true ∧
      ∀ i, i < numStudents cfgW → ∀ c ∈ choicesOf cfgW i, c < numActivities cfgW) ∧
    ((objectiveTerms cfgW = (List.range cfgW.numPeriods).flatMap fun p =>
        (List.range (numStudents cfgW)).flatMap fun i =>
          [((p, i, choiceAt cfgW i 0), 1000), ((p, i, choiceAt cfgW i 1), 100),
           ((p, i, choiceAt cfgW i 2), 10), ((p, i, choiceAt cfgW i 3), 1)]) ∧
    (∀ t ∈ objectiveTerms cfgW, t.1.2.2 ∈ choicesOf cfgW t.1.2.1) ∧
    objectiveValue cfgW solW
      = 1000 * (rankMatchCount cfgW solW 0 : Int) + 100 * (rankMatchCount cfgW solW 1 : Int)
          + 10 * (rankMatchCount cfgW solW 2 : Int) + (rankMatchCount cfgW solW 3 : Int)) :=
  ⟨⟨by decide, by decide⟩, C6_objective cfgW solW (by decide) (by decide)⟩



/-! ### Validator machinery (C8): names versus ids -/

/-- The id of a catalog name is a valid index. -/
lemma activitiesDict_lt_length {acts : List String} {n : String} (hn : n ∈ acts) :
    activitiesDict acts n < acts.length := by
  induction acts with
  | nil => cases hn
  | cons a t ih =>
    rw [activitiesDict, List.indexOf, List.findIdx_cons]
    cases h : a == n
    · simp only [cond_false]
      have hnt : n ∈ t := by
        rcases List.mem_cons.mp hn with rfl | hmem
        · simp at h
        · exact hmem
      have := ih hnt
      rw [activitiesDict, List.indexOf] at this
      simp only [List.length_cons]
      omega
    · simp

/-- Looking a catalog name's id back up returns the name. -/
lemma getD_activitiesDict {acts : List String} {n : String} (hn : n ∈ acts) :
    acts.getD (activitiesDict acts n) "" = n := by
  induction acts with
  | nil => cases hn
  | cons a t ih =>
    rw [activitiesDict, List.indexOf, List.findIdx_cons]
    cases h : a == n
    · simp only [cond_false]
      have hnt : n ∈ t := by
        rcases List.mem_cons.mp hn with rfl | hmem
        · simp at h
        · exact hmem
      rw [List.getD_cons_succ]
      have := ih hnt
      rw [activitiesDict, List.indexOf] at this
      exact this
    · simp only [cond_true, List.getD_cons_zero]
      exact beq_iff_eq.mp h

/-- With a duplicate-free catalog, the id of the name at position `j`
is `j` itself. -/
lemma activitiesDict_getD {acts : List String} (hnod : acts.Nodup) {j : Nat}
    (hj : j < acts.length) :
    activitiesDict acts (acts.getD j "") = j := by
  induction acts generalizing j with
  | nil => simp at hj
  | cons a t ih =>
    rcases j with _ | j
    · rw [List.getD_cons_zero, activitiesDict, List.indexOf, List.findIdx_cons]
      simp
    · rw [List.getD_cons_succ, activitiesDict, List.indexOf, List.findIdx_cons]
      have hjt : j < t.length := by
        simp only [List.length_cons] at hj
        omega
      have hmem : t.getD j "" ∈ t := by
        rw [List.getD_eq_getElem?_getD, List.getElem?_eq_getElem hjt]
        exact List.getElem_mem hjt
      have hane : (a == t.getD j "") = false := by
        rcases List.nodup_cons.mp hnod with ⟨hnotin, _⟩
        cases hbe : a == t.getD j ""
        · rfl
        · exact absurd ((beq_iff_eq.mp hbe) ▸ hmem) hnotin
      rw [hane]
      simp only [cond_false]
      have := ih (List.nodup_cons.mp hnod).2 hjt
      rw [activitiesDict, List.indexOf] at this
      omega

/-- A catalog name is among the extracted assignment names exactly when its
id is among the extracted ids. -/
lemma name_mem_assignments_iff {cfg : Config} {v : Nat → Nat → Nat → Int} {i : Nat}
    (hacts : cfg.activitiesList.Nodup) {n : String} (hn : n ∈ cfg.activitiesList) :
    n ∈ assignmentsOf cfg v i
      ↔ activitiesDict cfg.activitiesList n ∈ assignedIds cfg v i := by
  rw [assignmentsOf]
  simp only [List.mem_map]
  constructor
  · rintro ⟨j, hj, hname⟩
    obtain ⟨p, hp, hjA, hv1⟩ := mem_assignedIds.mp hj
    have hij : activitiesDict cfg.activitiesList n = j := by
      rw [← hname]
      exact activitiesDict_getD hacts hjA
    rw [hij]
    exact hj
  · intro hid
    exact ⟨_, hid, getD_activitiesDict hn⟩

/-- Membership agreement makes one flag agree. -/
lemma gotChoiceFlag_congr {as as' : List String} (h : ∀ x, x ∈ as ↔ x ∈ as')
    (c : String) : gotChoiceFlag c as = gotChoiceFlag c as' := by
  rw [gotChoiceFlag, gotChoiceFlag]
  by_cases hc : c ∈ as
  · rw [if_pos hc, if_pos ((h c).mp hc)]
  · rw [if_neg hc, if_neg fun hc' => hc ((h c).mpr hc')]

/-- The per-student flag sum is a pure membership test: it only depends on
which names are in the assignment list, not on positions or multiplicity. -/
lemma studentChoiceFlagsSum_congr (info : StudentInfo) {as as' : List String}
    (h : ∀ x, x ∈ as ↔ x ∈ as') :
    studentChoiceFlagsSum info as = studentChoiceFlagsSum info as' := by
  rcases hs : info.choicesFullNames with _ | ⟨c1, _ | ⟨c2, _ | ⟨c3, _ | ⟨c4, _ | ⟨c5, r⟩⟩⟩⟩⟩ <;>
    simp only [studentChoiceFlagsSum, hs, gotChoiceFlag_congr h]

/-- Filter length over a four-element list as a sum of indicators. -/
lemma filter_length_four {α : Type} (q : α → Bool) (a b c d : α) :
    ([a, b, c, d].filter q).length
      = (if q a then 1 else 0) + (if q b then 1 else 0)
          + (if q c then 1 else 0) + (if q d then 1 else 0) := by
  by_cases ha : q a <;> by_cases hb : q b <;> by_cases hc : q c <;> by_cases hd : q d <;>
    simp [List.filter_cons, ha, hb, hc, hd]



/-- For a feasible student whose preference names are in the catalog, the
validator's recomputed flag sum is exactly 3. -/
lemma flags_sum_eq_three {cfg : Config} {v : Nat → Nat → Nat → Int}
    (hf : feasibleB cfg v = true) (hacts : cfg.activitiesList.Nodup)
    {i : Nat} (hi : i < numStudents cfg)
    (hnames : ∀ c ∈ (infoOf cfg i).choicesFullNames, c ∈ cfg.activitiesList) :
    studentChoiceFlagsSum (infoOf cfg i) (assignmentsOf cfg v i) = 3 := by
  have hchoices : choicesOf cfg i
      = (infoOf cfg i).choicesFullNames.map (activitiesDict cfg.activitiesList) := rfl
  have hvalid : ∀ c ∈ choicesOf cfg i, c < numActivities cfg := by
    intro c hc
    rw [hchoices] at hc
    obtain ⟨n, hn, rfl⟩ := List.mem_map.mp hc
    exact activitiesDict_lt_length (hnames n hn)
  have h3 := matched_choices_length hf hi hvalid
  have hns : (infoOf cfg i).choicesFullNames
      = [(cfg.rows.getD i defaultRow).choice1, (cfg.rows.getD i defaultRow).choice2,
         (cfg.rows.getD i defaultRow).choice3, (cfg.rows.getD i defaultRow).choice4] := rfl
  have hsum : studentChoiceFlagsSum (infoOf cfg i) (assignmentsOf cfg v i)
      = gotChoiceFlag (cfg.rows.getD i defaultRow).choice1 (assignmentsOf cfg v i)
        + gotChoiceFlag (cfg.rows.getD i defaultRow).choice2 (assignmentsOf cfg v i)
        + gotChoiceFlag (cfg.rows.getD i defaultRow).choice3 (assignmentsOf cfg v i)
        + gotChoiceFlag (cfg.rows.getD i defaultRow).choice4 (assignmentsOf cfg v i) := rfl
  rw [hsum]
  have hflag : ∀ n, n ∈ cfg.activitiesList →
      gotChoiceFlag n (assignmentsOf cfg v i)
        = if activitiesDict cfg.activitiesList n ∈ assignedIds cfg v i then 1 else 0 := by
    intro n hn
    rw [gotChoiceFlag]
    exact if_congr (name_mem_assignments_iff hacts hn) rfl rfl
  have hm1 : (cfg.rows.getD i defaultRow).choice1 ∈ cfg.activitiesList := by
    apply hnames
    rw [hns]
    simp
  have hm2 : (cfg.rows.getD i defaultRow).choice2 ∈ cfg.activitiesList := by
    apply hnames
    rw [hns]
    simp
  have hm3 : (cfg.rows.getD i defaultRow).choice3 ∈ cfg.activitiesList := by
    apply hnames
    rw [hns]
    simp
  have hm4 : (cfg.rows.getD i defaultRow).choice4 ∈ cfg.activitiesList := by
    apply hnames
    rw [hns]
    simp
  rw [hflag _ hm1, hflag _ hm2, hflag _ hm3, hflag _ hm4]
  rw [hchoices, hns] at h3
  simp only [List.map_cons, List.map_nil] at h3
  rw [filter_length_four] at h3
  simp only [decide_eq_true_eq] at h3
  exact h3

/-- C8: the validator recomputes 3-of-4 satisfaction from the Assignment
alone by a position-insensitive membership test — the flag sum only
depends on which names are in the assignment list — and for every feasible
(hence every optimal) solution the recomputed count of students with
exactly 3 of 4 matches equals the number of students, i.e. the percentage
is 100%. -/
theorem C8_validator (cfg : Config) (v : Nat → Nat → Nat → Int)
    (hf : feasibleB cfg v = true) (hacts : cfg.activitiesList.Nodup)
    (hnames : ∀ i, i < numStudents cfg →
      ∀ c ∈ (infoOf cfg i).choicesFullNames, c ∈ cfg.activitiesList) :
    (∀ (info : StudentInfo) (as as' : List String),
        (∀ x, x ∈ as ↔ x ∈ as') →
        studentChoiceFlagsSum info as = studentChoiceFlagsSum info as') ∧
    totalGot3of4 cfg v = numStudents cfg := by
  refine ⟨fun info as as' h => studentChoiceFlagsSum_congr info h, ?_⟩
  rw [totalGot3of4]
  have hall : ∀ i ∈ List.range (numStudents cfg),
      (studentChoiceFlagsSum (infoOf cfg i) (assignmentsOf cfg v i) == 3) = true := by
    intro i hir
    have hi := List.mem_range.mp hir
    rw [beq_iff_eq]
    exact flags_sum_eq_three hf hacts hi (hnames i hi)
  rw [List.filter_eq_self.mpr hall, List.length_range]

/-- Witness for C8 at the sample run: 1 of 1 students gets 3 of 4. -/
theorem C8_witness :
    (feasibleB cfgW solW = true ∧ cfgW.activitiesList.Nodup ∧
      (∀ i, i < numStudents cfgW →
        ∀ c ∈ (infoOf cfgW i).choicesFullNames, c ∈ cfgW.activitiesList)) ∧
    ((∀ (info : StudentInfo) (as as' : List String),
        (∀ x, x ∈ as ↔ x ∈ as') →
        studentChoiceFlagsSum info as = studentChoiceFlagsSum info as') ∧
    totalGot3of4 cfgW solW = numStudents cfgW) :=
  ⟨⟨by decide, by decide, by decide⟩,
    C8_validator cfgW solW (by decide) (by decide) (by decide)⟩



/-! ### Extraction and output rows (C2, C9, C10) -/

/-- The extracted assignment-name list of a feasible student has one name
per period. -/
lemma assignmentsOf_length {cfg : Config} {v : Nat → Nat → Nat → Int}
    (hf : feasibleB cfg v = true) {i : Nat} (hi : i < numStudents cfg) :
    (assignmentsOf cfg v i).length = cfg.numPeriods := by
  rw [assignmentsOf, List.length_map]
  exact assignedIds_length hf hi

/-- The row construction succeeds exactly when the assignment list has
exactly three entries (the script's fixed-size unpack). -/
lemma buildRow_isSome_iff (cfg : Config) (i : Nat) (as : List String) :
    (buildRow (infoOf cfg i) as).isSome = true ↔ as.length = 3 := by
  rcases as with _ | ⟨a1, _ | ⟨a2, _ | ⟨a3, _ | ⟨a4, rest⟩⟩⟩⟩ <;>
    simp [buildRow, infoOf, studentInfo]

/-- A successfully built row always has exactly 8 fields. -/
lemma buildRow_length {info : StudentInfo} {assignments r : List String}
    (h : buildRow info assignments = some r) : r.length = 8 := by
  rcases info with ⟨ch, names, nm⟩
  rcases names with _ | ⟨c1, _ | ⟨c2, _ | ⟨c3, _ | ⟨c4, _ | ⟨c5, cr⟩⟩⟩⟩⟩ <;>
    rcases assignments with _ | ⟨a1, _ | ⟨a2, _ | ⟨a3, _ | ⟨a4, ar⟩⟩⟩⟩ <;>
      simp only [buildRow, Option.some.injEq] at h <;>
      first
        | (rw [← h]; rfl)
        | cases h

/-- Every member of a successful `mapM` image is the image of a member. -/
lemma mapM_mem_some {α β : Type} (f : α → Option β) :
    ∀ (l : List α) (bs : List β), l.mapM f = some bs → ∀ b ∈ bs, ∃ a ∈ l, f a = some b := by
  intro l
  induction l with
  | nil =>
    intro bs h b hb
    simp only [List.mapM_nil, Option.pure_def, Option.some.injEq] at h
    rw [← h] at hb
    cases hb
  | cons a t ih =>
    intro bs h b hb
    rw [List.mapM_cons] at h
    cases hfa : f a with
    | none =>
      rw [hfa] at h
      simp at h
    | some y =>
      rw [hfa] at h
      cases hmt : t.mapM f with
      | none =>
        rw [hmt] at h
        simp at h
      | some ys =>
        rw [hmt] at h
        simp at h
        subst h
        rcases List.mem_cons.mp hb with rfl | hmem
        · exact ⟨a, List.mem_cons_self a t, hfa⟩
        · obtain ⟨x, hx, hfx⟩ := ih ys hmt b hmem
          exact ⟨x, List.mem_cons_of_mem a hx, hfx⟩

/-- C9: after a successful solve (any feasible solution, three periods),
each student's output record is exactly the 8 fields
`[last ++ ", " ++ first, choice1, choice2, choice3, choice4, a1, a2, a3]`
where the choice fields echo the input preferences in rank order and the
three assignment fields are the extracted activity names in period order. -/
theorem C9_output_record (cfg : Config) (v : Nat → Nat → Nat → Int) (i : Nat)
    (hi : i < numStudents cfg) (hf : feasibleB cfg v = true)
    (hP : cfg.numPeriods = 3) :
    ∃ a1 a2 a3, assignmentsOf cfg v i = [a1, a2, a3] ∧
      buildRow (infoOf cfg i) (assignmentsOf cfg v i)
        = some [(cfg.rows.getD i defaultRow).lastName ++ ", "
                  ++ (cfg.rows.getD i defaultRow).firstName,
                (cfg.rows.getD i defaultRow).choice1, (cfg.rows.getD i defaultRow).choice2,
                (cfg.rows.getD i defaultRow).choice3, (cfg.rows.getD i defaultRow).choice4,
                a1, a2, a3] := by
  have hlen : (assignmentsOf cfg v i).length = 3 := by
    rw [assignmentsOf_length hf hi, hP]
  obtain ⟨a1, a2, a3, heq⟩ := (length_eq_three_iff _).mp hlen
  refine ⟨a1, a2, a3, heq, ?_⟩
  rw [heq]
  rfl

/-- Witness for C9 at the sample run. -/
theorem C9_witness :
    (0 < numStudents cfgW ∧ feasibleB cfgW solW = true ∧ cfgW.numPeriods = 3) ∧
    (∃ a1 a2 a3, assignmentsOf cfgW solW 0 = [a1, a2, a3] ∧
      buildRow (infoOf cfgW 0) (assignmentsOf cfgW solW 0)
        = some [(cfgW.rows.getD 0 defaultRow).lastName ++ ", "
                  ++ (cfgW.rows.getD 0 defaultRow).firstName,
                (cfgW.rows.getD 0 defaultRow).choice1, (cfgW.rows.getD 0 defaultRow).choice2,
                (cfgW.rows.getD 0 defaultRow).choice3, (cfgW.rows.getD 0 defaultRow).choice4,
                a1, a2, a3]) :=
  ⟨⟨by decide, by decide, by decide⟩,
    C9_output_record cfgW solW 0 (by decide) (by decide) (by decide)⟩

/-- C10: the header row written to the output CSV has 9 column names, its
last one being the never-populated `assignment4`, while every per-student
data row of a run that reaches output writing has exactly 8 fields — the
header is always one column longer than every data row. -/
theorem C10_header_mismatch (cfg : Config) (v : Nat → Nat → Nat → Int)
    (rs : List (List String)) (hres : resultsOf cfg v = some rs) :
    outputHeaders.length = 9 ∧ outputHeaders.getD 8 "" = "assignment4" ∧
      ∀ r ∈ rs, r.length = 8 ∧ r.length + 1 = outputHeaders.length := by
  refine ⟨rfl, rfl, ?_⟩
  intro r hr
  obtain ⟨i, _, hbuild⟩ := mapM_mem_some _ _ _ hres r hr
  have h8 := buildRow_length hbuild
  exact ⟨h8, by rw [h8]; rfl⟩

/-- Witness for C10 at the sample run, where extraction succeeds. -/
theorem C10_witness :
    resultsOf cfgW solW
      = some [["Lovelace, Ada", "100ChartPicture", "BubbleMania", "Closeto20", "Measuring",
               "100ChartPicture", "BubbleMania", "Closeto20"]] ∧
    (outputHeaders.length = 9 ∧ outputHeaders.getD 8 "" = "assignment4" ∧
      ∀ r ∈ [["Lovelace, Ada", "100ChartPicture", "BubbleMania", "Closeto20", "Measuring",
               "100ChartPicture", "BubbleMania", "Closeto20"]], r.length = 8 ∧
        r.length + 1 = outputHeaders.length) :=
  ⟨by decide, C10_header_mismatch cfgW solW _ (by decide)⟩



/-- Inconsistent solver output for `cfgW`, violating the per-period
exclusivity contract while keeping the student's total at 3: in period 0
TWO variables are 1 (activities 0 and 1), in period 1 none, in period 2
one (activity 0, repeating it). -/
def badSol : Nat → Nat → Nat → Int :=
  fun p i j =>
    if i = 0 ∧ ((p = 0 ∧ (j = 0 ∨ j = 1)) ∨ (p = 2 ∧ j = 0)) then 1 else 0

/-- Counterexample to C2: under `badSol` the pair (period 0, student 0) has
two variables at 1 and (period 1, student 0) has zero, yet extraction and
row construction complete without any error and silently emit a malformed
row (activity `100ChartPicture` appears twice, period 1's slot is filled by
period 2's activity). -/
theorem C2_counterexample :
    ((List.range (numActivities cfgW)).filter fun j => badSol 0 0 j == 1).length = 2 ∧
      ((List.range (numActivities cfgW)).filter fun j => badSol 1 0 j == 1).length = 0 ∧
      resultsOf cfgW badSol
        = some [["Lovelace, Ada", "100ChartPicture", "BubbleMania", "Closeto20", "Measuring",
                 "100ChartPicture", "BubbleMania", "100ChartPicture"]] := by
  decide

/-- C2 amended: the extraction stage aborts (the fixed-size unpack of the
per-student assignment list fails) exactly when some student's total
number of 1-valued variables across all periods and activities differs
from 3; a per-(period, student) violation of the exclusivity contract that
keeps that total at 3 is silently tolerated and produces an output row
with no error. -/
theorem C2_extraction_failure_iff (cfg : Config) (v : Nat → Nat → Nat → Int) (i : Nat) :
    (buildRow (infoOf cfg i) (assignmentsOf cfg v i)).isSome = true
      ↔ ((List.range cfg.numPeriods).flatMap fun p =>
           (List.range (numActivities cfg)).filter fun j => v p i j == 1).length = 3 := by
  rw [buildRow_isSome_iff, assignmentsOf, List.length_map, assignedIds]

/-- C7 counterexample: the infeasible status (−1) and the undefined /
solver-error statuses (−3, 0) produce the one identical failure value, so
the two failure kinds are not distinguishable by the caller. -/
theorem C7_counterexample :
    checkSolution LpStatusInfeasible = checkSolution LpStatusUndefined ∧
      checkSolution LpStatusInfeasible = checkSolution LpStatusNotSolved ∧
      checkSolution LpStatusInfeasible = Except.error "solution not found" :=
  ⟨rfl, rfl, rfl⟩

/-- C7 amended: every status other than optimal (code 1) makes the run
fail hard with the single fixed message "solution not found" — there is no
relaxation, re-modeling or retry — but infeasibility is NOT surfaced
distinctly from a solver error: both produce the identical failure value. -/
theorem C7_hard_failure (s : Int) (h : s ≠ 1) :
    checkSolution s = Except.error "solution not found" ∧
      checkSolution LpStatusInfeasible = checkSolution LpStatusUndefined := by
  constructor
  · simp [checkSolution, h]
  · rfl

/-- Witness for C7 at the infeasible status code. -/
theorem C7_witness :
    LpStatusInfeasible ≠ 1 ∧
      (checkSolution LpStatusInfeasible = Except.error "solution not found" ∧
        checkSolution LpStatusInfeasible = checkSolution LpStatusUndefined) :=
  ⟨by decide, C7_hard_failure LpStatusInfeasible (by decide)⟩


end ScienceFair
